import Mathlib

/-!
Verification development for the `SplinePath` path representation of the
`python_sdk` (file `splinepath.py`).

The numeric code is embedded over the real numbers: Python floats become `ℝ`,
NumPy vector operations become list operations, and the exceptions raised by
the Python runtime and by the NumPy/SciPy routines become an explicit error
type.  External library calls (scipy's `interp1d(kind='quadratic')`,
`scipy.optimize.brenth`, `numpy.linspace`, `numpy.arange`) are not repository
code; they are modelled by their documented contracts:

* `interp1d(kind='quadratic')` is modelled as a C¹ piecewise-quadratic
  interpolant through the supplied knots (`buildQS`), failing with a
  `ValueError` when fewer than 3 knots are supplied or the knot abscissae are
  not strictly increasing — scipy's actual preconditions for a quadratic
  spline.  The exact B-spline knot placement of scipy is not reproduced; the
  model shares the contract properties (interpolation at the knots, piecewise
  quadratic, C¹) that the specification relies on, and coincides with scipy
  on data sampled from a polynomial of degree ≤ 2 (the concrete scenarios
  below are all of this kind).
* `brenth` is kept abstract: `project` is parametrized by a bracketed
  root-finder `solve`, and theorems that depend on the root it returns take
  the root property as a hypothesis.
-/

noncomputable section

open Classical

/-- Errors observable from the embedded Python code: `ValueError` (raised by
numpy/scipy and by `sample`), `ZeroDivisionError` (numpy `arange` with step
0), `IndexError` (fancy indexing into an empty points array), and the
`InvalidInputError` that the specification describes (never raised by the
code; it is included so that statements about it can be expressed). -/
inductive PyErr where
  | valueError
  | zeroDivisionError
  | indexError
  | invalidInputError
  deriving DecidableEq

/-- Chord lengths between consecutive waypoints:
`np.sqrt(np.sum(np.diff(points[:, 0:2], axis=0)**2, axis=1))`. -/
def chords : List (ℝ × ℝ) → List ℝ
  | p :: q :: rest => Real.sqrt ((q.1 - p.1) ^ 2 + (q.2 - p.2) ^ 2) :: chords (q :: rest)
  | _ => []

/-- Cumulative sums prefixed with the start value: `cumFrom 0 l` embeds
`np.hstack(([0], np.cumsum(l)))`. -/
def cumFrom (a : ℝ) : List ℝ → List ℝ
  | [] => [a]
  | d :: ds => a :: cumFrom (a + d) ds

/-- The cumulative chord-length parameters `si` of a waypoint list. -/
def arcLengths (pts : List (ℝ × ℝ)) : List ℝ := cumFrom 0 (chords pts)

/-- The greedy selection loop of `SplinePath.__init__`:
`for k, si_k in enumerate(si): if si_k - si[si_idx[-1]] >= min_grid: si_idx.append(k)`.
`last` is the most recently selected index (`si_idx[-1]`). -/
def greedyGo (si : List ℝ) (g : ℝ) : ℕ → List ℕ → List ℕ
  | _, [] => []
  | last, k :: ks =>
    if g ≤ si.getD k 0 - si.getD last 0 then k :: greedyGo si g k ks
    else greedyGo si g last ks

/-- The `min_grid` resampling of `SplinePath.__init__`: the greedy loop seeded
with `si_idx = [0]`, followed by
`if si[si_idx[-1]] != si[-1]: si_idx.append(len(si) - 1)`. -/
def resampleIdx (si : List ℝ) (g : ℝ) : List ℕ :=
  let L := 0 :: greedyGo si g 0 (List.range si.length)
  if si.getD (L.getLastD 0) 0 ≠ si.getLastD 0 then L ++ [si.length - 1] else L

/-- One quadratic piece `a·(s−t)² + b·(s−t) + c` of a piecewise-quadratic
interpolant, valid from abscissa `t`. -/
structure Piece where
  t : ℝ
  a : ℝ
  b : ℝ
  c : ℝ

/-- Evaluate a piecewise quadratic: the piece whose interval contains `s`
(the last piece also serving for everything at or beyond its start). -/
def evalQ : List Piece → ℝ → ℝ
  | [], _ => 0
  | [pc], s => pc.a * (s - pc.t) ^ 2 + pc.b * (s - pc.t) + pc.c
  | pc :: pc2 :: rest, s =>
    if s < pc2.t then pc.a * (s - pc.t) ^ 2 + pc.b * (s - pc.t) + pc.c
    else evalQ (pc2 :: rest) s

/-- First derivative of a piecewise quadratic (`2a·(s−t) + b`), the analytic
derivative used for `_dfx`/`_dfy`. -/
def evalDQ : List Piece → ℝ → ℝ
  | [], _ => 0
  | [pc], s => 2 * pc.a * (s - pc.t) + pc.b
  | pc :: pc2 :: rest, s =>
    if s < pc2.t then 2 * pc.a * (s - pc.t) + pc.b
    else evalDQ (pc2 :: rest) s

/-- Second derivative of a piecewise quadratic (`2a` on each piece). -/
def evalDDQ : List Piece → ℝ → ℝ
  | [], _ => 0
  | [pc], _ => 2 * pc.a
  | pc :: pc2 :: rest, s =>
    if s < pc2.t then 2 * pc.a
    else evalDDQ (pc2 :: rest) s

/-- Modelled from the spec (§4.2), for the external facility
`scipy.interpolate.interp1d(kind='quadratic')`: builds the pieces of a C¹
piecewise-quadratic interpolant left to right.  `sp, yp` is the previous
knot, `m` the incoming derivative; each piece interpolates both endpoints and
continues the derivative. -/
def buildGo : ℝ → ℝ → ℝ → List (ℝ × ℝ) → List Piece
  | _, _, _, [] => []
  | sp, yp, m, (sn, yn) :: rest =>
    let hs := sn - sp
    let a := (yn - yp - m * hs) / hs ^ 2
    ⟨sp, a, m, yp⟩ :: buildGo sn yn (2 * a * hs + m) rest

/-- Modelled from the spec (§4.2): quadratic interpolant through the knots
`(sᵢ, yᵢ)`, with the initial derivative taken as the first chord slope. -/
def buildQS : List (ℝ × ℝ) → List Piece
  | (s0, y0) :: (s1, y1) :: rest => buildGo s0 y0 ((y1 - y0) / (s1 - s0)) ((s1, y1) :: rest)
  | _ => []

/-- `np.max` of a list of reals (0 on the empty list, never hit by the code). -/
def listMax : List ℝ → ℝ
  | [] => 0
  | x :: xs => xs.foldl max x

/-- The state of a constructed `SplinePath` object: the (possibly resampled)
waypoints held by `PathBase._path`, the scalar `length`, the knot parameters
`si` held inside the interpolants, the quadratic pieces of `fx`, `fy` and of
the curvature spline `_c`, and the clamp values of `_c`'s
`fill_value=(ci[0], ci[-1])`. -/
structure SplinePath where
  path : List (ℝ × ℝ)
  length : ℝ
  si : List ℝ
  fx : List Piece
  fy : List Piece
  cs : List Piece
  cFill0 : ℝ
  cFill1 : ℝ

instance : Inhabited SplinePath := ⟨⟨[], 0, [], [], [], [], 0, 0⟩⟩

/-- The common tail of `SplinePath.__init__` once the knot index subset is
chosen: select points and arc lengths, build the interpolants and the
curvature spline.  `interp1d(kind='quadratic')` raises `ValueError` unless it
gets at least 3 strictly increasing abscissae (scipy precondition, see the
module comment). -/
def splineBuild (pts : List (ℝ × ℝ)) (idx : List ℕ) : Except PyErr SplinePath :=
  let sel := idx.map (fun i => pts.getD i (0, 0))
  let si := idx.map (fun i => (arcLengths pts).getD i 0)
  let xs := sel.map Prod.fst
  let ys := sel.map Prod.snd
  if 3 ≤ si.length ∧ List.Chain' (· < ·) si then
    let fxp := buildQS (si.zip xs)
    let fyp := buildQS (si.zip ys)
    let ci := si.map (fun s => evalDQ fxp s * evalDDQ fyp s - evalDQ fyp s * evalDDQ fxp s)
    .ok { path := sel, length := listMax si, si := si, fx := fxp, fy := fyp,
          cs := buildQS (si.zip ci), cFill0 := ci.getD 0 0, cFill1 := ci.getLastD 0 }
  else .error .valueError

/-- `SplinePath.__init__`.  Fancy-indexing an empty points array raises
`IndexError`; with `min_grid` given the knots are the greedily resampled
indices, otherwise all indices.  No validation beyond the library errors
exists in the source. -/
def splineInit (pts : List (ℝ × ℝ)) (mg : Option ℝ) : Except PyErr SplinePath :=
  if pts.isEmpty then .error .indexError else
  match mg with
  | some g => splineBuild pts (resampleIdx (arcLengths pts) g)
  | none => splineBuild pts (List.range (arcLengths pts).length)

/-- `SplinePath.p` (scalar form): `(self.fx(s), self.fy(s))`. -/
def SplinePath.p (P : SplinePath) (s : ℝ) : ℝ × ℝ := (evalQ P.fx s, evalQ P.fy s)

/-- `SplinePath.c`: the curvature spline with its boundary clamp
(`bounds_error=False, fill_value=(ci[0], ci[-1])`). -/
def SplinePath.c (P : SplinePath) (s : ℝ) : ℝ :=
  if s < P.si.getD 0 0 then P.cFill0
  else if P.si.getLastD 0 < s then P.cFill1
  else evalQ P.cs s

/-- `SplinePath.heading`, scalar branch: `h = h / sqrt(h.dot(h))`,
`nc = (-h[1], h[0])`. -/
def SplinePath.heading (P : SplinePath) (s : ℝ) : (ℝ × ℝ) × (ℝ × ℝ) :=
  let a := evalDQ P.fx s
  let b := evalDQ P.fy s
  let n := Real.sqrt (a * a + b * b)
  ((a / n, b / n), (-(b / n), a / n))

/-- `SplinePath.heading`, vectorized branch: each row scaled by
`c = 1 / np.linalg.norm(h, axis=1)`, then `nc = (-h[:,1], h[:,0])`. -/
def SplinePath.headingVec (P : SplinePath) (ss : List ℝ) : List ((ℝ × ℝ) × (ℝ × ℝ)) :=
  ss.map (fun s =>
    let a := evalDQ P.fx s
    let b := evalDQ P.fy s
    let c := 1 / Real.sqrt (a * a + b * b)
    ((c * a, c * b), (-(c * b), c * a)))

/-- The scalar root function `s_fun` defined inside `SplinePath.project`:
`dp[0] * nc[1] - dp[1] * nc[0]` with `hi, nc = self.heading(si)` and
`dp = p - self.p(si)`. -/
def SplinePath.s_fun (P : SplinePath) (p : ℝ × ℝ) (si : ℝ) : ℝ :=
  let nc := (P.heading si).2
  let dp := (p.1 - (P.p si).1, p.2 - (P.p si).2)
  dp.1 * nc.2 - dp.2 * nc.1

/-- Modelled from the spec (§4.4 step 1): the root function the specification
claims `project` uses, `cross(tangent(s), p − path(s))`. -/
def SplinePath.s_fun_claimed (P : SplinePath) (p : ℝ × ℝ) (si : ℝ) : ℝ :=
  let h := (P.heading si).1
  let dp := (p.1 - (P.p si).1, p.2 - (P.p si).2)
  h.1 * dp.2 - h.2 * dp.1

/-- The tail of `SplinePath.project`: `dp = np.cross(hi, dp)` at the selected
arc length, the signed lateral offset. -/
def SplinePath.offsetAt (P : SplinePath) (p : ℝ × ℝ) (si : ℝ) : ℝ :=
  let hi := (P.heading si).1
  let dp := (p.1 - (P.p si).1, p.2 - (P.p si).2)
  hi.1 * dp.2 - hi.2 * dp.1

/-- `np.sign`. -/
def signR (x : ℝ) : ℝ := if 0 < x then 1 else if x < 0 then -1 else 0

/-- Squared Euclidean distance, `dp.dot(dp)` of the fallback branch. -/
def sqDist (p q : ℝ × ℝ) : ℝ := (p.1 - q.1) * (p.1 - q.1) + (p.2 - q.2) * (p.2 - q.2)

/-- The bracket-expansion `while` loop of `SplinePath.project`, as a
fuel-indexed recursion on the state `(smin, smax, cnt)`.  The loop body runs
while `np.sign(s_fun(smin)) == np.sign(s_fun(smax)) and cnt < cnt_lim`;
`project` supplies fuel `⌈cnt_lim⌉ + 1`, which is never exhausted since `cnt`
increases by one per iteration. -/
def expandLoop (f : ℝ → ℝ) (len ds lim : ℝ) : ℕ → ℝ × ℝ × ℕ → ℝ × ℝ × ℕ
  | 0, st => st
  | fuel + 1, (smin, smax, cnt) =>
    if signR (f smin) = signR (f smax) ∧ (cnt : ℝ) < lim then
      expandLoop f len ds lim fuel (max 0 (smin - ds), min (smax + ds) len, cnt + 1)
    else (smin, smax, cnt)

/-- `SplinePath.project`, parametrized by the bracketed root-finder `solve`
standing for `scipy.optimize.brenth`.  Returns the pair `(s, d)` of the
source together with the observable warning flag: `warnings.warn` fires only
in the no-sign-change branch and only when `verbose` is true. -/
def SplinePath.project (P : SplinePath) (solve : (ℝ → ℝ) → ℝ → ℝ → ℝ) (p : ℝ × ℝ)
    (s0 ds s_lim : ℝ) (verbose : Bool) : (ℝ × ℝ) × Bool :=
  let f := P.s_fun p
  let lim := s_lim / ds
  let r := expandLoop f P.length ds lim (Nat.ceil lim + 1) (s0, s0, 0)
  let sb : ℝ × Bool :=
    if (r.2.2 : ℝ) < lim then (solve f r.1 r.2.1, false)
    else (if sqDist p (P.p r.1) < sqDist p (P.p r.2.1) then r.1 else r.2.1, verbose)
  ((sb.1, P.offsetAt p sb.1), sb.2)

/-- The loop body of `SplinePath.path_error`: project each trajectory point,
record the offset, and carry the projected arc length as the next seed. -/
def peGo (P : SplinePath) (solve : (ℝ → ℝ) → ℝ → ℝ → ℝ) : ℝ → List (ℝ × ℝ) → List ℝ
  | _, [] => []
  | s0, q :: rest =>
    let r := P.project solve q s0 1 20 false
    r.1.2 :: peGo P solve r.1.1 rest

/-- `SplinePath.path_error`: `s0 = 0`, then
`si, dk = self.project(p_car, s0, ds=1, s_lim=20); s0 = si` per point. -/
def SplinePath.path_error (P : SplinePath) (solve : (ℝ → ℝ) → ℝ → ℝ → ℝ)
    (w : List (ℝ × ℝ)) : List ℝ :=
  peGo P solve 0 w

/-- The seed that `path_error` passes to its `k`-th projection when started
from `s0`: the start value for `k = 0`, afterwards the arc length returned by
the previous projection. -/
def projSeed (P : SplinePath) (solve : (ℝ → ℝ) → ℝ → ℝ → ℝ) (s0 : ℝ)
    (w : List (ℝ × ℝ)) : ℕ → ℝ
  | 0 => s0
  | k + 1 => (P.project solve (w.getD k (0, 0)) (projSeed P solve s0 w k) 1 20 false).1.1

/-- Model of `numpy.linspace(a, b, n)` (with endpoint): `n` evenly spaced
values from `a` to `b`. -/
def linspaceM (a b : ℝ) : ℕ → List ℝ
  | 0 => []
  | 1 => [a]
  | n + 2 => (List.range (n + 2)).map (fun i => a + (b - a) * i / (n + 1))

/-- Model of `numpy.arange(0, stop, step)` for a nonzero step: values
`0, step, 2·step, …` strictly below `stop` (empty when the step is negative
and `stop` is positive). -/
def arangeGo (stop step : ℝ) : ℝ → ℕ → List ℝ
  | _, 0 => []
  | v, fuel + 1 => if v < stop then v :: arangeGo stop step (v + step) fuel else []

/-- `numpy.arange(0, stop, step)`, `step ≠ 0`. -/
def arangeM (stop step : ℝ) : List ℝ :=
  if 0 < step then arangeGo stop step 0 (Nat.ceil (stop / step) + 1)
  else if 0 < stop then [] else []

/-- `SplinePath.sample`: uses `N` when given (no both-given check, no
positivity check of its own — a negative `N` is rejected by `np.linspace`, a
zero step by `np.arange`), otherwise `sample_length`, otherwise raises
`ValueError`. -/
def SplinePath.sample (P : SplinePath) (N : Option ℤ) (sample_length : Option ℝ) :
    Except PyErr (List (ℝ × ℝ)) :=
  match N with
  | some n =>
    if n < 0 then .error .valueError
    else .ok ((linspaceM 0 P.length n.toNat).map P.p)
  | none =>
    match sample_length with
    | some sl =>
      if sl = 0 then .error .zeroDivisionError
      else .ok ((arangeM P.length sl).map P.p)
    | none => .error .valueError

/-- `PathBase._computelength`: `dp = self._path[0:-2, :] - self._path[1:-1, :]`
followed by the sum of the row norms — the chords of `path.dropLast` (the
final chord is dropped by the off-by-one slicing). -/
def computelength (path : List (ℝ × ℝ)) : ℝ := (chords path.dropLast).sum

/-- The `PathBase.path` property setter: replaces `_path` and recomputes
`length` in place; the spline interpolants of a `SplinePath` are left
untouched. -/
def setPath (P : SplinePath) (pts : List (ℝ × ℝ)) : SplinePath :=
  { P with path := pts, length := computelength pts }

/-- A trivially computable stand-in root-finder (the bracket midpoint), used
to instantiate the `solve` parameter in concrete scenarios. -/
def midSolve : (ℝ → ℝ) → ℝ → ℝ → ℝ := fun _ a b => (a + b) / 2

/-- The all-coincident degenerate input of the specification's
`InvalidInputError` clause: every point equals the first one. -/
def allCoincident (pts : List (ℝ × ℝ)) : Prop := ∀ q ∈ pts, q = pts.getD 0 (0, 0)

/-- Scenario waypoints: three collinear points on the x-axis. -/
def pts3 : List (ℝ × ℝ) := [(0, 0), (5, 0), (10, 0)]

/-- The `SplinePath` state that `splineInit pts3 none` produces (certified by
`line3_ok` below): both coordinate splines are the straight line, the
curvature spline is identically zero. -/
def line3 : SplinePath :=
  { path := pts3, length := 10, si := [0, 5, 10],
    fx := [⟨0, 0, 1, 0⟩, ⟨5, 0, 1, 5⟩],
    fy := [⟨0, 0, 0, 0⟩, ⟨5, 0, 0, 0⟩],
    cs := [⟨0, 0, 0, 0⟩, ⟨5, 0, 0, 0⟩],
    cFill0 := 0, cFill1 := 0 }

/-! ### Helper lemmas: concrete square roots and the straight-line path -/

lemma sqrt_twentyfive : Real.sqrt 25 = 5 := by
  rw [show (25 : ℝ) = 5 ^ 2 by norm_num, Real.sqrt_sq (by norm_num : (0 : ℝ) ≤ 5)]

lemma sqrt_four : Real.sqrt 4 = 2 := by
  rw [show (4 : ℝ) = 2 ^ 2 by norm_num, Real.sqrt_sq (by norm_num : (0 : ℝ) ≤ 2)]

lemma chords_pts3 : chords pts3 = [5, 5] := by
  simp only [pts3, chords]
  norm_num [sqrt_twentyfive]

lemma arcLengths_pts3 : arcLengths pts3 = [0, 5, 10] := by
  rw [arcLengths, chords_pts3]
  norm_num [cumFrom]

theorem line3_ok : splineInit pts3 none = Except.ok line3 := by
  have hr : List.range 3 = [0, 1, 2] := by decide
  have hlen : (arcLengths pts3).length = 3 := by rw [arcLengths_pts3]; rfl
  rw [splineInit, if_neg (by simp [pts3])]
  show splineBuild pts3 (List.range (arcLengths pts3).length) = Except.ok line3
  rw [hlen, hr, splineBuild, arcLengths_pts3]
  norm_num [pts3, line3, List.chain'_cons, List.chain'_singleton,
    List.getD_cons_zero, List.getD_cons_succ, List.zip_cons_cons, buildQS, buildGo,
    evalQ, evalDQ, evalDDQ, listMax, List.getLastD]

lemma line3_fx (s : ℝ) : evalQ line3.fx s = s := by
  simp only [line3, evalQ]
  split_ifs <;> ring

lemma line3_fy (s : ℝ) : evalQ line3.fy s = 0 := by
  simp only [line3, evalQ]
  split_ifs <;> ring

lemma line3_cs (s : ℝ) : evalQ line3.cs s = 0 := by
  simp only [line3, evalQ]
  split_ifs <;> ring

lemma line3_dfx (s : ℝ) : evalDQ line3.fx s = 1 := by
  simp only [line3, evalDQ]
  split_ifs <;> ring

lemma line3_dfy (s : ℝ) : evalDQ line3.fy s = 0 := by
  simp only [line3, evalDQ]
  split_ifs <;> ring

lemma line3_p (s : ℝ) : line3.p s = (s, 0) := by
  simp [SplinePath.p, line3_fx, line3_fy]

lemma line3_heading (s : ℝ) : line3.heading s = ((1, 0), (0, 1)) := by
  simp only [SplinePath.heading, line3_dfx, line3_dfy]
  norm_num [Real.sqrt_one]

lemma line3_sfun (p : ℝ × ℝ) (s : ℝ) : line3.s_fun p s = p.1 - s := by
  simp only [SplinePath.s_fun, line3_heading, line3_p]
  ring

lemma line3_offset (p : ℝ × ℝ) (s : ℝ) : line3.offsetAt p s = p.2 := by
  simp only [SplinePath.offsetAt, line3_heading, line3_p]
  ring

lemma line3_c (s : ℝ) : line3.c s = 0 := by
  simp only [SplinePath.c, line3_cs]
  split_ifs <;> simp [line3]

lemma line3_sfun_claimed (p : ℝ × ℝ) (s : ℝ) : line3.s_fun_claimed p s = p.2 := by
  simp only [SplinePath.s_fun_claimed, line3_heading, line3_p]
  ring

lemma expandLoop_succ (f : ℝ → ℝ) (len ds lim : ℝ) (fuel : ℕ) (smin smax : ℝ) (cnt : ℕ) :
    expandLoop f len ds lim (fuel + 1) (smin, smax, cnt) =
      if signR (f smin) = signR (f smax) ∧ (cnt : ℝ) < lim then
        expandLoop f len ds lim fuel (max 0 (smin - ds), min (smax + ds) len, cnt + 1)
      else (smin, smax, cnt) := rfl

lemma loopC4 : expandLoop (line3.s_fun (5, 2)) line3.length 1 (20 / 1)
    (Nat.ceil ((20 : ℝ) / 1) + 1) (5, 5, 0) = (4, 6, 1) := by
  have hf : ∀ s : ℝ, line3.s_fun (5, 2) s = 5 - s := fun s => by rw [line3_sfun]
  have hlen : line3.length = 10 := rfl
  have h21 : Nat.ceil ((20 : ℝ) / 1) + 1 = 21 := by norm_num
  rw [h21, show (21 : ℕ) = 20 + 1 from rfl, expandLoop_succ]
  norm_num [hf, signR, hlen]
  rw [show (20 : ℕ) = 19 + 1 from rfl, expandLoop_succ]
  norm_num [hf, signR]

lemma loopC3 : expandLoop (line3.s_fun (100, 0)) line3.length 1 (2 / 1)
    (Nat.ceil ((2 : ℝ) / 1) + 1) (5, 5, 0) = (3, 7, 2) := by
  have hf : ∀ s : ℝ, line3.s_fun (100, 0) s = 100 - s := fun s => by rw [line3_sfun]
  have hlen : line3.length = 10 := rfl
  have hd : (2 : ℝ) / 1 = 2 := by norm_num
  have h3 : Nat.ceil ((2 : ℝ)) + 1 = 3 := by norm_num
  rw [hd, h3]
  show expandLoop (line3.s_fun (100, 0)) line3.length 1 2 (2 + 1) (5, 5, 0) = (3, 7, 2)
  rw [expandLoop_succ]
  norm_num [hf, signR, hlen]
  show expandLoop (line3.s_fun (100, 0)) 10 1 2 (1 + 1) (4, 6, 1) = (3, 7, 2)
  rw [expandLoop_succ]
  norm_num [hf, signR]
  show expandLoop (line3.s_fun (100, 0)) 10 1 2 (0 + 1) (3, 7, 2) = (3, 7, 2)
  rw [expandLoop_succ]
  norm_num [hf, signR]

lemma projectC4 (solve : (ℝ → ℝ) → ℝ → ℝ → ℝ)
    (hroot : line3.s_fun (5, 2) (solve (line3.s_fun (5, 2)) 4 6) = 0) :
    line3.project solve (5, 2) 5 1 20 false = ((5, 2), false) := by
  have hr5 : solve (line3.s_fun (5, 2)) 4 6 = 5 := by
    rw [line3_sfun] at hroot
    norm_num at hroot
    linarith
  simp only [SplinePath.project, loopC4]
  norm_num [hr5, line3_offset]

lemma projectC3 : line3.project midSolve (100, 0) 5 1 2 false = ((7, 0), false) := by
  simp only [SplinePath.project, loopC3]
  norm_num [sqDist, line3_p, line3_offset]

/-- The bracket-expansion loop exactly as `project` invokes it. -/
def projLoop (P : SplinePath) (p : ℝ × ℝ) (s0 ds s_lim : ℝ) : ℝ × ℝ × ℕ :=
  expandLoop (P.s_fun p) P.length ds (s_lim / ds) (Nat.ceil (s_lim / ds) + 1) (s0, s0, 0)

/-- C2 counterexample: on the straight-line path produced by the constructor,
at query point (5, 2) and arc length 5, the code's root function evaluates to
0 while the claimed formula cross(tangent, p − path(s)) evaluates to 2, so
the two are not equal. -/
theorem C2_counterexample :
    line3.s_fun (5, 2) 5 = 0 ∧ line3.s_fun_claimed (5, 2) 5 = 2 ∧
    line3.s_fun (5, 2) 5 ≠ line3.s_fun_claimed (5, 2) 5 := by
  refine ⟨?_, ?_, ?_⟩ <;> norm_num [line3_sfun, line3_sfun_claimed]

/-- C2 amended: the scalar root function used by `project` equals the dot
product of the unit tangent with p − path(s) (the code forms the cross
product of p − path(s) with the left normal, which is this dot product), not
the cross product with the tangent. -/
theorem C2_amended (P : SplinePath) (p : ℝ × ℝ) (s : ℝ) :
    P.s_fun p s =
      (P.heading s).1.1 * (p.1 - (P.p s).1) + (P.heading s).1.2 * (p.2 - (P.p s).2) := by
  simp only [SplinePath.s_fun, SplinePath.heading]
  ring

/-- C3 amended: when the expansion loop ends with its count not below
`s_lim/ds`, `project` returns whichever bracket boundary is Euclidean-closer
to the query point, with the offset evaluated there; no fallback flag is
carried in the result — the returned Boolean (whether `warnings.warn` fired)
merely equals the `verbose` argument. -/
theorem C3_amended (P : SplinePath) (solve : (ℝ → ℝ) → ℝ → ℝ → ℝ) (p : ℝ × ℝ)
    (s0 ds s_lim : ℝ) (verbose : Bool)
    (h : ¬ (((projLoop P p s0 ds s_lim).2.2 : ℝ) < s_lim / ds)) :
    ((P.project solve p s0 ds s_lim verbose).1.1 = (projLoop P p s0 ds s_lim).1 ∨
     (P.project solve p s0 ds s_lim verbose).1.1 = (projLoop P p s0 ds s_lim).2.1) ∧
    sqDist p (P.p ((P.project solve p s0 ds s_lim verbose).1.1)) ≤
      sqDist p (P.p ((projLoop P p s0 ds s_lim).1)) ∧
    sqDist p (P.p ((P.project solve p s0 ds s_lim verbose).1.1)) ≤
      sqDist p (P.p ((projLoop P p s0 ds s_lim).2.1)) ∧
    (P.project solve p s0 ds s_lim verbose).1.2 =
      P.offsetAt p ((P.project solve p s0 ds s_lim verbose).1.1) ∧
    (P.project solve p s0 ds s_lim verbose).2 = verbose := by
  simp only [projLoop] at h ⊢
  simp only [SplinePath.project]
  rw [if_neg h]
  by_cases hc :
      sqDist p (P.p (expandLoop (P.s_fun p) P.length ds (s_lim / ds)
        (Nat.ceil (s_lim / ds) + 1) (s0, s0, 0)).1) <
      sqDist p (P.p (expandLoop (P.s_fun p) P.length ds (s_lim / ds)
        (Nat.ceil (s_lim / ds) + 1) (s0, s0, 0)).2.1)
  · rw [if_pos hc]
    exact ⟨Or.inl rfl, le_refl _, le_of_lt hc, trivial, rfl⟩
  · rw [if_neg hc]
    exact ⟨Or.inr rfl, le_of_not_lt hc, le_refl _, trivial, rfl⟩

/-- C3 witness: on the straight-line path with query point (100, 0), seed 5,
ds = 1, s_lim = 2, the expansion loop exhausts (count 2 = s_lim/ds) and
`project` returns a bracket boundary with the flag merely echoing
verbose = false. -/
theorem C3_witness :
    ¬ (((projLoop line3 (100, 0) 5 1 2).2.2 : ℝ) < 2 / 1) ∧
    ((line3.project midSolve (100, 0) 5 1 2 false).1.1 = (projLoop line3 (100, 0) 5 1 2).1 ∨
     (line3.project midSolve (100, 0) 5 1 2 false).1.1 = (projLoop line3 (100, 0) 5 1 2).2.1) ∧
    (line3.project midSolve (100, 0) 5 1 2 false).2 = false := by
  have hl : projLoop line3 (100, 0) 5 1 2 = (3, 7, 2) := by
    simp only [projLoop]
    exact loopC3
  have h : ¬ (((projLoop line3 (100, 0) 5 1 2).2.2 : ℝ) < 2 / 1) := by
    rw [hl]
    norm_num
  obtain ⟨h1, _, _, _, h5⟩ := C3_amended line3 midSolve (100, 0) 5 1 2 false h
  exact ⟨h, h1, h5⟩

/-- C3 counterexample: with the expansion exhausted (count 2, not below
s_lim/ds = 2) and the default verbose = false, `project` returns the bare
pair at the closer boundary with the observable flag false — no
boundary-fallback flag is carried in the result. -/
theorem C3_counterexample :
    line3.project midSolve (100, 0) 5 1 2 false = ((7, 0), false) ∧
    (projLoop line3 (100, 0) 5 1 2).2.2 = 2 ∧ ¬ ((2 : ℝ) < 2 / 1) := by
  refine ⟨projectC3, ?_, by norm_num⟩
  simp only [projLoop]
  rw [loopC3]

/-- C4 counterexample: constructing a Path from exactly the two points (0,0)
and (10,0) does not succeed — the quadratic interpolation facility needs at
least 3 knots, so construction fails with a ValueError. -/
theorem C4_counterexample :
    splineInit [((0 : ℝ), (0 : ℝ)), (10, 0)] none = .error .valueError := by
  rw [splineInit]
  norm_num [splineBuild, arcLengths, chords, cumFrom]

/-- C4 amended: with the three collinear points (0,0), (5,0), (10,0) the
construction succeeds and yields length 10, p(5) = (5,0), zero curvature on
[0, 10], and `project((5,2), seed 5)` = (5, 2), for any root-finder that
returns a root of the scalar root function on the bracket [4, 6]. -/
theorem C4_amended (solve : (ℝ → ℝ) → ℝ → ℝ → ℝ)
    (hroot : line3.s_fun (5, 2) (solve (line3.s_fun (5, 2)) 4 6) = 0) :
    splineInit pts3 none = Except.ok line3 ∧
    line3.length = 10 ∧
    line3.p 5 = (5, 0) ∧
    (∀ s : ℝ, 0 ≤ s → s ≤ 10 → line3.c s = 0) ∧
    (line3.project solve (5, 2) 5 1 20 false).1 = (5, 2) :=
  ⟨line3_ok, rfl, by rw [line3_p], fun s _ _ => line3_c s, by rw [projectC4 solve hroot]⟩

/-- C4 witness: the bracket-midpoint solver returns the root 5, and all the
amended scenario-A facts hold at it (curvature instantiated at s = 3). -/
theorem C4_witness :
    line3.s_fun (5, 2) (midSolve (line3.s_fun (5, 2)) 4 6) = 0 ∧
    splineInit pts3 none = Except.ok line3 ∧
    line3.length = 10 ∧
    line3.p 5 = (5, 0) ∧
    line3.c 3 = 0 ∧
    (line3.project midSolve (5, 2) 5 1 20 false).1 = (5, 2) := by
  have h : line3.s_fun (5, 2) (midSolve (line3.s_fun (5, 2)) 4 6) = 0 := by
    norm_num [midSolve, line3_sfun]
  obtain ⟨h1, h2, h3p, h4, h5⟩ := C4_amended midSolve h
  exact ⟨h, h1, h2, h3p, h4 3 (by norm_num) (by norm_num), h5⟩

/-- C7 counterexample: assigning to the `path` property of an existing Path
replaces its waypoints and recomputes its length in place (here to 0, the
buggy slicing dropping the only chord) while the interpolants stay stale —
the Path is mutated, not rebuilt. -/
theorem C7_counterexample :
    (setPath line3 [(1, 1), (2, 2)]).path = [(1, 1), (2, 2)] ∧
    [((1 : ℝ), (1 : ℝ)), (2, 2)] ≠ line3.path ∧
    (setPath line3 [(1, 1), (2, 2)]).length = 0 ∧
    (setPath line3 [(1, 1), (2, 2)]).fx = line3.fx := by
  refine ⟨rfl, by norm_num [line3, pts3], ?_, rfl⟩
  show computelength [(1, 1), (2, 2)] = 0
  simp [computelength, chords]

/-- C7 amended: the public interface is not mutation-free — the `path` setter
yields a state with the new waypoints and a freshly computed length (the
formula dropping the final chord), while every interpolant field of the
existing Path is left unchanged (stale). -/
theorem C7_amended (P : SplinePath) (pts : List (ℝ × ℝ)) :
    (setPath P pts).path = pts ∧
    (setPath P pts).length = (chords pts.dropLast).sum ∧
    (setPath P pts).si = P.si ∧
    (setPath P pts).fx = P.fx ∧
    (setPath P pts).fy = P.fy ∧
    (setPath P pts).cs = P.cs :=
  ⟨rfl, rfl, rfl, rfl, rfl, rfl⟩

lemma linspaceM_two (a b : ℝ) : linspaceM a b 2 = [a, b] := by
  show linspaceM a b (0 + 2) = [a, b]
  simp only [linspaceM]
  norm_num [List.range_succ]

/-- C5 counterexample: calling `sample` with both a point count and an
arc-length step given does not fail — `N` takes precedence and the sampled
points are returned. -/
theorem C5_counterexample :
    line3.sample (some 2) (some 1) = .ok [(0, 0), (10, 0)] := by
  simp only [SplinePath.sample]
  rw [if_neg (by norm_num : ¬ ((2 : ℤ) < 0))]
  rw [show (2 : ℤ).toNat = 2 from rfl, linspaceM_two]
  simp [line3_p, show line3.length = 10 from rfl]

/-- C5 amended: `sample` itself raises only when neither argument is given
(a ValueError, not an ArgumentError); when both are given `N` takes
precedence and the `N`-point sample is returned, with no positivity
validation performed by `sample`. -/
theorem C5_amended (P : SplinePath) (n : ℤ) (hn : 0 ≤ n) (sl : Option ℝ) :
    P.sample none none = .error .valueError ∧
    P.sample (some n) sl = .ok ((linspaceM 0 P.length n.toNat).map P.p) := by
  refine ⟨rfl, ?_⟩
  simp only [SplinePath.sample]
  rw [if_neg (not_lt.mpr hn)]

/-- C5 witness: instantiation of the amended sample contract at the
straight-line path, N = 2 and step 1 both given. -/
theorem C5_witness :
    (0 : ℤ) ≤ 2 ∧
    line3.sample none none = .error .valueError ∧
    line3.sample (some 2) (some 1) = .ok ((linspaceM 0 line3.length (2 : ℤ).toNat).map line3.p) := by
  obtain ⟨h1, h2⟩ := C5_amended line3 2 (by norm_num) (some 1)
  exact ⟨by norm_num, h1, h2⟩

/-- C9: wherever the derivative of the interpolant does not vanish, `heading`
returns a unit tangent and unit left-normal that are orthogonal, and the
vectorized branch computes exactly the scalar branch row by row. -/
theorem C9_theorem (P : SplinePath) (s : ℝ)
    (h : evalDQ P.fx s * evalDQ P.fx s + evalDQ P.fy s * evalDQ P.fy s ≠ 0) :
    Real.sqrt ((P.heading s).1.1 ^ 2 + (P.heading s).1.2 ^ 2) = 1 ∧
    Real.sqrt ((P.heading s).2.1 ^ 2 + (P.heading s).2.2 ^ 2) = 1 ∧
    (P.heading s).1.1 * (P.heading s).2.1 + (P.heading s).1.2 * (P.heading s).2.2 = 0 ∧
    ∀ ss : List ℝ, P.headingVec ss = ss.map (fun t => P.heading t) := by
  have hnn : 0 ≤ evalDQ P.fx s * evalDQ P.fx s + evalDQ P.fy s * evalDQ P.fy s :=
    add_nonneg (mul_self_nonneg _) (mul_self_nonneg _)
  have hpos : 0 < evalDQ P.fx s * evalDQ P.fx s + evalDQ P.fy s * evalDQ P.fy s :=
    lt_of_le_of_ne hnn (Ne.symm h)
  have hsq : Real.sqrt (evalDQ P.fx s * evalDQ P.fx s + evalDQ P.fy s * evalDQ P.fy s) ^ 2 =
      evalDQ P.fx s * evalDQ P.fx s + evalDQ P.fy s * evalDQ P.fy s := Real.sq_sqrt hnn
  have hne : Real.sqrt (evalDQ P.fx s * evalDQ P.fx s + evalDQ P.fy s * evalDQ P.fy s) ≠ 0 :=
    ne_of_gt (Real.sqrt_pos.mpr hpos)
  refine ⟨?_, ?_, ?_, ?_⟩
  · simp only [SplinePath.heading]
    have hin : (evalDQ P.fx s / Real.sqrt (evalDQ P.fx s * evalDQ P.fx s + evalDQ P.fy s * evalDQ P.fy s)) ^ 2 +
        (evalDQ P.fy s / Real.sqrt (evalDQ P.fx s * evalDQ P.fx s + evalDQ P.fy s * evalDQ P.fy s)) ^ 2 = 1 := by
      field_simp
      ring
    rw [hin, Real.sqrt_one]
  · simp only [SplinePath.heading]
    have hin : (-(evalDQ P.fy s / Real.sqrt (evalDQ P.fx s * evalDQ P.fx s + evalDQ P.fy s * evalDQ P.fy s))) ^ 2 +
        (evalDQ P.fx s / Real.sqrt (evalDQ P.fx s * evalDQ P.fx s + evalDQ P.fy s * evalDQ P.fy s)) ^ 2 = 1 := by
      field_simp
      ring
    rw [hin, Real.sqrt_one]
  · simp only [SplinePath.heading]
    ring
  · intro ss
    simp only [SplinePath.headingVec, SplinePath.heading, one_div, inv_mul_eq_div]

/-- C9 witness: the straight-line path at s = 1 has nonvanishing derivative,
so all the heading invariants apply there. -/
theorem C9_witness :
    evalDQ line3.fx 1 * evalDQ line3.fx 1 + evalDQ line3.fy 1 * evalDQ line3.fy 1 ≠ 0 ∧
    Real.sqrt ((line3.heading 1).1.1 ^ 2 + (line3.heading 1).1.2 ^ 2) = 1 ∧
    line3.headingVec [0, 5] = [0, 5].map (fun t => line3.heading t) := by
  have h : evalDQ line3.fx 1 * evalDQ line3.fx 1 + evalDQ line3.fy 1 * evalDQ line3.fy 1 ≠ 0 := by
    norm_num [line3_dfx, line3_dfy]
  obtain ⟨h1, _, _, h4⟩ := C9_theorem line3 1 h
  exact ⟨h, h1, h4 [0, 5]⟩

lemma peGo_length (P : SplinePath) (solve : (ℝ → ℝ) → ℝ → ℝ → ℝ) (w : List (ℝ × ℝ)) :
    ∀ s0 : ℝ, (peGo P solve s0 w).length = w.length := by
  induction w with
  | nil => intro s0; rfl
  | cons q rest ih => intro s0; simp [peGo, ih]

lemma projSeed_cons (P : SplinePath) (solve : (ℝ → ℝ) → ℝ → ℝ → ℝ) (s0 : ℝ)
    (q : ℝ × ℝ) (rest : List (ℝ × ℝ)) (k : ℕ) :
    projSeed P solve s0 (q :: rest) (k + 1) =
    projSeed P solve ((P.project solve q s0 1 20 false).1.1) rest k := by
  induction k with
  | zero => simp [projSeed]
  | succ k ih =>
    have hstep : projSeed P solve s0 (q :: rest) (k + 1 + 1) =
        (P.project solve ((q :: rest).getD (k + 1) (0, 0))
          (projSeed P solve s0 (q :: rest) (k + 1)) 1 20 false).1.1 := rfl
    rw [hstep, ih, List.getD_cons_succ]
    rfl

lemma peGo_get (P : SplinePath) (solve : (ℝ → ℝ) → ℝ → ℝ → ℝ) (w : List (ℝ × ℝ)) :
    ∀ (s0 : ℝ) (k : ℕ), k < w.length →
      (peGo P solve s0 w).getD k 0 =
      (P.project solve (w.getD k (0, 0)) (projSeed P solve s0 w k) 1 20 false).1.2 := by
  induction w with
  | nil => intro s0 k hk; simp at hk
  | cons q rest ih =>
    intro s0 k hk
    cases k with
    | zero => simp [peGo, projSeed]
    | succ k =>
      have hk' : k < rest.length := by simpa using hk
      simp only [peGo, List.getD_cons_succ, projSeed_cons]
      exact ih _ k hk'

/-- C10: `path_error` produces one offset per trajectory point; the first
projection is seeded with arc length 0, every projection is invoked with
ds = 1 and s_lim = 20, and each subsequent seed is the arc length returned by
the previous projection. -/
theorem C10_theorem (P : SplinePath) (solve : (ℝ → ℝ) → ℝ → ℝ → ℝ) (w : List (ℝ × ℝ)) :
    (P.path_error solve w).length = w.length ∧
    projSeed P solve 0 w 0 = 0 ∧
    ∀ k : ℕ, k < w.length →
      (P.path_error solve w).getD k 0 =
      (P.project solve (w.getD k (0, 0)) (projSeed P solve 0 w k) 1 20 false).1.2 ∧
      projSeed P solve 0 w (k + 1) =
      (P.project solve (w.getD k (0, 0)) (projSeed P solve 0 w k) 1 20 false).1.1 :=
  ⟨peGo_length P solve w 0, rfl, fun k hk => ⟨peGo_get P solve w 0 k hk, rfl⟩⟩

/-- C10 witness: a two-point trajectory on the straight-line path — the
second offset is the projection of the second point seeded by the first
projection's result. -/
theorem C10_witness :
    1 < ([((0 : ℝ), (1 : ℝ)), (5, 1)] : List (ℝ × ℝ)).length ∧
    (line3.path_error midSolve [(0, 1), (5, 1)]).getD 1 0 =
      (line3.project midSolve (5, 1) (projSeed line3 midSolve 0 [(0, 1), (5, 1)] 1) 1 20 false).1.2 := by
  have h := (C10_theorem line3 midSolve [(0, 1), (5, 1)]).2.2 1 (by norm_num)
  refine ⟨by norm_num, ?_⟩
  have h1 := h.1
  simpa using h1

/-! ### Interpolation at the knots (C8) -/

lemma getD_map_fst (l : List (ℝ × ℝ)) : ∀ i : ℕ, (l.map Prod.fst).getD i 0 = (l.getD i (0, 0)).1 := by
  induction l with
  | nil => intro i; simp
  | cons a t ih =>
    intro i
    cases i with
    | zero => simp
    | succ j => simpa using ih j

lemma getD_map_snd (l : List (ℝ × ℝ)) : ∀ i : ℕ, (l.map Prod.snd).getD i 0 = (l.getD i (0, 0)).2 := by
  induction l with
  | nil => intro i; simp
  | cons a t ih =>
    intro i
    cases i with
    | zero => simp
    | succ j => simpa using ih j

lemma getD_zip (l : List ℝ) : ∀ (m : List ℝ) (i : ℕ), i < l.length → i < m.length →
    (l.zip m).getD i (0, 0) = (l.getD i 0, m.getD i 0) := by
  induction l with
  | nil => intro m i h _; simp at h
  | cons a t ih =>
    intro m i h1 h2
    cases m with
    | nil => simp at h2
    | cons b u =>
      cases i with
      | zero => simp
      | succ j =>
        have hj1 : j < t.length := by simpa using h1
        have hj2 : j < u.length := by simpa using h2
        simpa using ih u j hj1 hj2

lemma buildGo_cons (sp yp m sn yn : ℝ) (rest : List (ℝ × ℝ)) :
    buildGo sp yp m ((sn, yn) :: rest) =
      Piece.mk sp ((yn - yp - m * (sn - sp)) / (sn - sp) ^ 2) m yp ::
        buildGo sn yn (2 * ((yn - yp - m * (sn - sp)) / (sn - sp) ^ 2) * (sn - sp) + m) rest := rfl

lemma buildGo_interp :
    ∀ (rest : List (ℝ × ℝ)) (sp yp m : ℝ),
      List.Chain' (· < ·) (sp :: rest.map Prod.fst) → rest ≠ [] →
      evalQ (buildGo sp yp m rest) sp = yp ∧
      ∀ i : ℕ, i < rest.length →
        evalQ (buildGo sp yp m rest) ((rest.getD i (0, 0)).1) = (rest.getD i (0, 0)).2 := by
  intro rest
  induction rest with
  | nil => intro sp yp m _ hne; exact absurd rfl hne
  | cons k rest2 ih =>
    intro sp yp m hch _
    obtain ⟨sn, yn⟩ := k
    rw [List.map_cons, List.chain'_cons] at hch
    obtain ⟨hlt, htail⟩ := hch
    have hs : sn - sp ≠ 0 := sub_ne_zero.mpr hlt.ne'
    cases rest2 with
    | nil =>
      rw [buildGo_cons]
      constructor
      · simp [buildGo, evalQ]
      · intro i hi
        cases i with
        | zero =>
          simp only [List.getD_cons_zero]
          simp only [buildGo, evalQ]
          field_simp
        | succ j => simp at hi
    | cons k2 r2 =>
      obtain ⟨s2, y2⟩ := k2
      rw [buildGo_cons, buildGo_cons]
      rw [← buildGo_cons]
      constructor
      · simp only [evalQ]
        rw [if_pos]
        · ring
        · exact hlt
      · intro i hi
        cases i with
        | zero =>
          simp only [List.getD_cons_zero]
          simp only [evalQ]
          rw [if_neg (lt_irrefl sn)]
          exact (ih sn yn _ htail (by simp)).1
        | succ j =>
          have hj : j < ((s2, y2) :: r2).length := by simpa using hi
          simp only [List.getD_cons_succ]
          simp only [evalQ]
          have hmem : ((((s2, y2) :: r2).getD j (0, 0)).1) ∈ (((s2, y2) :: r2).map Prod.fst) := by
            rw [List.getD_eq_getElem _ _ hj]
            exact List.mem_map_of_mem Prod.fst (List.getElem_mem hj)
          have hgt : sn < (((s2, y2) :: r2).getD j (0, 0)).1 := by
            have hpw := List.chain'_iff_pairwise.mp htail
            exact (List.pairwise_cons.mp hpw).1 _ hmem
          rw [if_neg (not_lt.mpr (le_of_lt hgt))]
          exact (ih sn yn _ htail (by simp)).2 j hj

lemma buildQS_interp (kys : List (ℝ × ℝ)) (hch : List.Chain' (· < ·) (kys.map Prod.fst))
    (hlen : 2 ≤ kys.length) :
    ∀ i : ℕ, i < kys.length →
      evalQ (buildQS kys) ((kys.getD i (0, 0)).1) = (kys.getD i (0, 0)).2 := by
  cases kys with
  | nil => simp at hlen
  | cons k1 t =>
    cases t with
    | nil => simp at hlen
    | cons k2 r =>
      obtain ⟨sa, ya⟩ := k1
      obtain ⟨sb, yb⟩ := k2
      have h := buildGo_interp ((sb, yb) :: r) sa ya ((yb - ya) / (sb - sa)) (by simpa using hch)
        (by simp)
      intro i hi
      cases i with
      | zero => simpa [buildQS] using h.1
      | succ j =>
        have hj : j < ((sb, yb) :: r).length := by simpa using hi
        simpa [buildQS] using h.2 j hj

lemma splineBuild_interp (pts : List (ℝ × ℝ)) (idx : List ℕ) (P : SplinePath)
    (h : splineBuild pts idx = Except.ok P) :
    ∀ i : ℕ, i < P.path.length → P.p (P.si.getD i 0) = P.path.getD i (0, 0) := by
  simp only [splineBuild] at h
  split at h
  case isTrue hc =>
    rw [Except.ok.injEq] at h
    subst h
    obtain ⟨hlen3, hchain⟩ := hc
    intro i hi
    simp only [SplinePath.p]
    set sel := idx.map (fun i => pts.getD i (0, 0)) with hseldef
    set si := idx.map (fun i => (arcLengths pts).getD i 0) with hsidef
    have hlsel : sel.length = idx.length := List.length_map _ _
    have hlsi : si.length = idx.length := List.length_map _ _
    have hlxs : (sel.map Prod.fst).length = sel.length := List.length_map _ _
    have hlys : (sel.map Prod.snd).length = sel.length := List.length_map _ _
    have hsx : si.length ≤ (sel.map Prod.fst).length := by rw [hlxs, hlsel, hlsi]
    have hsy : si.length ≤ (sel.map Prod.snd).length := by rw [hlys, hlsel, hlsi]
    have hi2 : i < si.length := by
      have : i < sel.length := hi
      rw [hlsi, ← hlsel]
      exact this
    have hzx : (si.zip (sel.map Prod.fst)).length = si.length := by
      rw [List.length_zip, hlxs, hlsel, ← hlsi, min_self]
    have hzy : (si.zip (sel.map Prod.snd)).length = si.length := by
      rw [List.length_zip, hlys, hlsel, ← hlsi, min_self]
    have hix : evalQ (buildQS (si.zip (sel.map Prod.fst))) (si.getD i 0) =
        (sel.getD i (0, 0)).1 := by
      have hb := buildQS_interp (si.zip (sel.map Prod.fst))
        (by rw [List.map_fst_zip si _ hsx]; exact hchain)
        (by rw [hzx]; omega) i (by rw [hzx]; exact hi2)
      rw [getD_zip si _ i hi2 (by rw [hlxs, hlsel, ← hlsi]; exact hi2)] at hb
      have hb2 : evalQ (buildQS (si.zip (sel.map Prod.fst))) (si.getD i 0) =
          (sel.map Prod.fst).getD i 0 := hb
      rw [getD_map_fst sel i] at hb2
      exact hb2
    have hiy : evalQ (buildQS (si.zip (sel.map Prod.snd))) (si.getD i 0) =
        (sel.getD i (0, 0)).2 := by
      have hb := buildQS_interp (si.zip (sel.map Prod.snd))
        (by rw [List.map_fst_zip si _ hsy]; exact hchain)
        (by rw [hzy]; omega) i (by rw [hzy]; exact hi2)
      rw [getD_zip si _ i hi2 (by rw [hlys, hlsel, ← hlsi]; exact hi2)] at hb
      have hb2 : evalQ (buildQS (si.zip (sel.map Prod.snd))) (si.getD i 0) =
          (sel.map Prod.snd).getD i 0 := hb
      rw [getD_map_snd sel i] at hb2
      exact hb2
    rw [hix, hiy]
  case isFalse => exact absurd h (by simp)

/-- C8: for every successfully constructed Path and every knot index, the
interpolant evaluated at that knot's arc length reproduces the knot point
exactly. -/
theorem C8_theorem (pts : List (ℝ × ℝ)) (mg : Option ℝ) (P : SplinePath)
    (h : splineInit pts mg = Except.ok P) :
    ∀ i : ℕ, i < P.path.length → P.p (P.si.getD i 0) = P.path.getD i (0, 0) := by
  cases mg with
  | some g =>
    rw [splineInit] at h
    by_cases hemp : pts.isEmpty = true
    · rw [if_pos hemp] at h
      exact absurd h (by simp)
    · rw [if_neg hemp] at h
      exact splineBuild_interp _ _ _ h
  | none =>
    rw [splineInit] at h
    by_cases hemp : pts.isEmpty = true
    · rw [if_pos hemp] at h
      exact absurd h (by simp)
    · rw [if_neg hemp] at h
      exact splineBuild_interp _ _ _ h

/-- C8 witness: on the three-point straight line, the knot at index 1 (arc
length 5) reproduces the waypoint (5, 0). -/
theorem C8_witness :
    splineInit pts3 none = Except.ok line3 ∧
    1 < line3.path.length ∧
    line3.p (line3.si.getD 1 0) = line3.path.getD 1 (0, 0) := by
  have hl : 1 < line3.path.length := by simp [line3, pts3]
  exact ⟨line3_ok, hl, C8_theorem pts3 none line3 line3_ok 1 hl⟩

/-! ### Resampling (C6) and degenerate construction (C1) support -/

lemma cumFrom_length (l : List ℝ) : ∀ a : ℝ, (cumFrom a l).length = l.length + 1 := by
  induction l with
  | nil => intro a; rfl
  | cons d ds ih => intro a; simp [cumFrom, ih]

lemma chords_length : ∀ pts : List (ℝ × ℝ), (chords pts).length = pts.length - 1 := by
  intro pts
  induction pts with
  | nil => rfl
  | cons p t ih =>
    cases t with
    | nil => rfl
    | cons q r =>
      have : (chords (q :: r)).length = (q :: r).length - 1 := ih
      simp only [chords, List.length_cons] at this ⊢
      omega

lemma chords_nonneg : ∀ (pts : List (ℝ × ℝ)) (d : ℝ), d ∈ chords pts → 0 ≤ d := by
  intro pts
  induction pts with
  | nil => intro d hd; simp [chords] at hd
  | cons p t ih =>
    cases t with
    | nil => intro d hd; simp [chords] at hd
    | cons q r =>
      intro d hd
      rcases List.mem_cons.mp hd with rfl | hd2
      · exact Real.sqrt_nonneg _
      · exact ih d hd2

lemma cumFrom_head (l : List ℝ) (a : ℝ) : (cumFrom a l).getD 0 0 = a := by
  cases l <;> rfl

lemma cumFrom_succ_sub (l : List ℝ) : ∀ (a : ℝ) (i : ℕ), i < l.length →
    (cumFrom a l).getD (i + 1) 0 = (cumFrom a l).getD i 0 + l.getD i 0 := by
  induction l with
  | nil => intro a i hi; simp at hi
  | cons d ds ih =>
    intro a i hi
    cases i with
    | zero =>
      show (cumFrom (a + d) ds).getD 0 0 = a + d
      rw [cumFrom_head]
    | succ j =>
      have hj : j < ds.length := by simpa using hi
      simpa [cumFrom] using ih (a + d) j hj

lemma cumFrom_lb (l : List ℝ) (hnn : ∀ d ∈ l, 0 ≤ d) : ∀ (a : ℝ) (k : ℕ),
    k < (cumFrom a l).length → a ≤ (cumFrom a l).getD k 0 := by
  induction l with
  | nil =>
    intro a k hk
    have : k = 0 := by simpa [cumFrom] using hk
    subst this
    simp [cumFrom]
  | cons d ds ih =>
    intro a k hk
    cases k with
    | zero => simp [cumFrom]
    | succ j =>
      have hd : 0 ≤ d := hnn d (by simp)
      have hj : j < (cumFrom (a + d) ds).length := by simpa [cumFrom] using hk
      have := ih (fun x hx => hnn x (by simp [hx])) (a + d) j hj
      have h2 : a ≤ a + d := by linarith
      calc a ≤ a + d := h2
        _ ≤ (cumFrom (a + d) ds).getD j 0 := this
        _ = (cumFrom a (d :: ds)).getD (j + 1) 0 := by simp [cumFrom]

lemma cumFrom_mono (l : List ℝ) (hnn : ∀ d ∈ l, 0 ≤ d) : ∀ (a : ℝ) (i j : ℕ), i ≤ j →
    j < (cumFrom a l).length → (cumFrom a l).getD i 0 ≤ (cumFrom a l).getD j 0 := by
  induction l with
  | nil =>
    intro a i j hij hj
    have hj0 : j = 0 := by simpa [cumFrom] using hj
    subst hj0
    have : i = 0 := Nat.le_zero.mp hij
    subst this
    exact le_refl _
  | cons d ds ih =>
    intro a i j hij hj
    cases j with
    | zero =>
      have : i = 0 := Nat.le_zero.mp hij
      subst this
      exact le_refl _
    | succ j2 =>
      have hnn2 : ∀ x ∈ ds, 0 ≤ x := fun x hx => hnn x (by simp [hx])
      have hj2 : j2 < (cumFrom (a + d) ds).length := by simpa [cumFrom] using hj
      cases i with
      | zero =>
        have hub : a + d ≤ (cumFrom (a + d) ds).getD j2 0 := cumFrom_lb ds hnn2 (a + d) j2 hj2
        have hd : 0 ≤ d := hnn d (by simp)
        have : (cumFrom a (d :: ds)).getD 0 0 = a := cumFrom_head _ _
        rw [this]
        calc a ≤ a + d := by linarith
          _ ≤ (cumFrom (a + d) ds).getD j2 0 := hub
          _ = (cumFrom a (d :: ds)).getD (j2 + 1) 0 := by simp [cumFrom]
      | succ i2 =>
        have hi2 : i2 ≤ j2 := Nat.succ_le_succ_iff.mp hij
        simpa [cumFrom] using ih hnn2 (a + d) i2 j2 hi2 hj2

lemma chords_zero_eq (pts : List (ℝ × ℝ)) : ∀ i : ℕ, i < (chords pts).length →
    (chords pts).getD i 0 = 0 → pts.getD i (0, 0) = pts.getD (i + 1) (0, 0) := by
  induction pts with
  | nil => intro i hi; simp [chords] at hi
  | cons p t ih =>
    cases t with
    | nil => intro i hi; simp [chords] at hi
    | cons q r =>
      intro i hi hz
      cases i with
      | zero =>
        simp only [chords, List.getD_cons_zero] at hz
        have hnn : 0 ≤ (q.1 - p.1) ^ 2 + (q.2 - p.2) ^ 2 := by positivity
        have h0 : (q.1 - p.1) ^ 2 + (q.2 - p.2) ^ 2 = 0 := (Real.sqrt_eq_zero hnn).mp hz
        have h1 : q.1 - p.1 = 0 := by nlinarith [sq_nonneg (q.1 - p.1), sq_nonneg (q.2 - p.2)]
        have h2 : q.2 - p.2 = 0 := by nlinarith [sq_nonneg (q.1 - p.1), sq_nonneg (q.2 - p.2)]
        have : p = q := Prod.ext (by linarith) (by linarith)
        simpa using this
      | succ j =>
        have hj : j < (chords (q :: r)).length := by
          simpa [chords] using hi
        have hzj : (chords (q :: r)).getD j 0 = 0 := by
          simpa [chords] using hz
        simpa using ih j hj hzj

lemma chain'_getD_nat {R : ℕ → ℕ → Prop} : ∀ l : List ℕ, List.Chain' R l →
    ∀ j : ℕ, j + 1 < l.length → R (l.getD j 0) (l.getD (j + 1) 0) := by
  intro l
  induction l with
  | nil => intro _ j hj; simp at hj
  | cons a t ih =>
    intro hch j hj
    cases t with
    | nil => simp at hj
    | cons b u =>
      rw [List.chain'_cons] at hch
      cases j with
      | zero => simpa using hch.1
      | succ j2 =>
        have hj2 : j2 + 1 < (b :: u).length := by simpa using hj
        simpa using ih hch.2 j2 hj2

lemma greedyGo_subset (si : List ℝ) (g : ℝ) : ∀ (ks : List ℕ) (last x : ℕ),
    x ∈ greedyGo si g last ks → x ∈ ks := by
  intro ks
  induction ks with
  | nil => intro last x hx; simp [greedyGo] at hx
  | cons k t ih =>
    intro last x hx
    simp only [greedyGo] at hx
    split_ifs at hx with hc
    · rcases List.mem_cons.mp hx with rfl | hx2
      · exact List.mem_cons_self _ _
      · exact List.mem_cons_of_mem _ (ih k x hx2)
    · exact List.mem_cons_of_mem _ (ih last x hx)

lemma greedyGo_chain (si : List ℝ) (g : ℝ) : ∀ (ks : List ℕ) (last : ℕ),
    List.Chain' (fun a b => g ≤ si.getD b 0 - si.getD a 0) (last :: greedyGo si g last ks) := by
  intro ks
  induction ks with
  | nil => intro last; simp [greedyGo]
  | cons k t ih =>
    intro last
    simp only [greedyGo]
    split_ifs with hc
    · exact List.chain'_cons.mpr ⟨hc, ih k⟩
    · exact ih last

lemma getLastD_mem {α : Type} : ∀ (l : List α) (d : α), l ≠ [] → l.getLastD d ∈ l := by
  intro l
  induction l with
  | nil => intro d h; exact absurd rfl h
  | cons a t ih =>
    intro d _
    cases t with
    | nil => simp
    | cons b u =>
      rw [List.getLastD_cons]
      exact List.mem_cons_of_mem _ (ih a (by simp))

lemma getLastD_eq_getD {α : Type} : ∀ (l : List α) (d : α), l ≠ [] →
    l.getLastD d = l.getD (l.length - 1) d := by
  intro l
  induction l with
  | nil => intro d h; exact absurd rfl h
  | cons a t ih =>
    intro d _
    cases t with
    | nil => rfl
    | cons b u =>
      rw [List.getLastD_cons, ih a (by simp)]
      have h1 : u.length < (b :: u).length := by simp
      have h2 : u.length + 1 < (a :: b :: u).length := by simp
      have h3 : (b :: u).length - 1 = u.length := by simp
      have h4 : (a :: b :: u).length - 1 = u.length + 1 := by simp
      rw [h3, h4, List.getD_eq_getElem _ _ h1, List.getD_eq_getElem _ _ h2]
      simp

lemma getD_append_left {α : Type} : ∀ (l l2 : List α) (d : α) (n : ℕ),
    n < l.length → (l ++ l2).getD n d = l.getD n d := by
  intro l
  induction l with
  | nil => intro l2 d n h; simp at h
  | cons a t ih =>
    intro l2 d n h
    cases n with
    | zero => rfl
    | succ m =>
      have hm : m < t.length := by simpa using h
      simpa using ih l2 d m hm

/-- C6: for every nonempty waypoint list and positive `min_grid`, the greedy
resampling gives consecutive selected arc-length gaps of at least `g` except
possibly the final (forced) one, and the selected points always include the
first and last original points. -/
theorem C6_theorem (pts : List (ℝ × ℝ)) (g : ℝ) (hg : 0 < g) (hne : pts ≠ []) :
    (∀ j : ℕ, j + 2 < (resampleIdx (arcLengths pts) g).length →
      g ≤ (arcLengths pts).getD ((resampleIdx (arcLengths pts) g).getD (j + 1) 0) 0 -
          (arcLengths pts).getD ((resampleIdx (arcLengths pts) g).getD j 0) 0) ∧
    pts.getD 0 (0, 0) ∈ (resampleIdx (arcLengths pts) g).map (fun i => pts.getD i (0, 0)) ∧
    pts.getLastD (0, 0) ∈ (resampleIdx (arcLengths pts) g).map (fun i => pts.getD i (0, 0)) := by
  have hnn : ∀ d ∈ chords pts, 0 ≤ d := chords_nonneg pts
  set si := arcLengths pts with hsidef
  set L := 0 :: greedyGo si g 0 (List.range si.length) with hLdef
  have hresample : resampleIdx si g =
      if si.getD (L.getLastD 0) 0 ≠ si.getLastD 0 then L ++ [si.length - 1] else L := rfl
  have hchain := greedyGo_chain si g (List.range si.length) 0
  have hLne : L ≠ [] := by simp [hLdef]
  have hnpos : 0 < pts.length := List.length_pos.mpr hne
  have hlsi : si.length = pts.length := by
    rw [hsidef, arcLengths, cumFrom_length, chords_length]
    omega
  have hsipos : 0 < si.length := by omega
  have hLltlen : ∀ x ∈ L, x < si.length := by
    intro x hx
    rcases List.mem_cons.mp hx with rfl | hx2
    · exact hsipos
    · exact List.mem_range.mp (greedyGo_subset si g _ 0 x hx2)
  have hgapL : ∀ j : ℕ, j + 1 < L.length →
      g ≤ si.getD (L.getD (j + 1) 0) 0 - si.getD (L.getD j 0) 0 :=
    chain'_getD_nat L hchain
  have hmono : ∀ i1 i2 : ℕ, i1 ≤ i2 → i2 < si.length → si.getD i1 0 ≤ si.getD i2 0 :=
    fun i1 i2 h12 h2 => cumFrom_mono (chords pts) hnn 0 i1 i2 h12 h2
  refine ⟨?_, ?_, ?_⟩
  · -- gap property
    intro j hj
    rw [hresample] at hj ⊢
    by_cases hcond : si.getD (L.getLastD 0) 0 ≠ si.getLastD 0
    · rw [if_pos hcond] at hj ⊢
      rw [List.length_append, List.length_singleton] at hj
      have hjL : j + 1 < L.length := by omega
      rw [getD_append_left L _ 0 j (by omega), getD_append_left L _ 0 (j + 1) hjL]
      exact hgapL j hjL
    · rw [if_neg hcond] at hj ⊢
      exact hgapL j (by omega)
  · -- first point retained
    have h0L : (0 : ℕ) ∈ L := by
      rw [hLdef]
      exact List.mem_cons_self _ _
    have h0 : (0 : ℕ) ∈ resampleIdx si g := by
      rw [hresample]
      split_ifs
      · exact List.mem_append_left _ h0L
      · exact h0L
    exact List.mem_map_of_mem _ h0
  · -- last point retained
    rw [hresample]
    by_cases hcond : si.getD (L.getLastD 0) 0 ≠ si.getLastD 0
    · rw [if_pos hcond]
      have hz : (si.length - 1 : ℕ) ∈ L ++ [si.length - 1] :=
        List.mem_append_right _ (by simp)
      have hlast : pts.getLastD (0, 0) = pts.getD (si.length - 1) (0, 0) := by
        rw [getLastD_eq_getD pts (0, 0) hne, hlsi]
      rw [hlast]
      exact List.mem_map_of_mem _ hz
    · rw [if_neg hcond]
      push_neg at hcond
      set j := L.getLastD 0 with hjdef
      have hjL : j ∈ L := getLastD_mem L 0 hLne
      have hjlt : j < si.length := hLltlen j hjL
      have hsine : si ≠ [] := by
        intro hnil
        rw [hnil] at hsipos
        simp at hsipos
      have hlast_eq : si.getLastD 0 = si.getD (si.length - 1) 0 := getLastD_eq_getD si 0 hsine
      have hclen : (chords pts).length = si.length - 1 := by
        rw [hlsi, chords_length]
      have htop : si.getD (si.length - 1) 0 = si.getD j 0 := by
        rw [← hlast_eq, ← hcond]
      have hstep : ∀ k : ℕ, j ≤ k → k + 1 ≤ si.length - 1 →
          pts.getD (k + 1) (0, 0) = pts.getD k (0, 0) := by
        intro k hk1 hk2
        have hk3 : k < si.length := by omega
        have hk4 : k + 1 < si.length := by omega
        have hja : si.getD j 0 ≤ si.getD k 0 := hmono j k hk1 hk3
        have hjb : si.getD k 0 ≤ si.getD (si.length - 1) 0 := hmono k _ (by omega) (by omega)
        have hja2 : si.getD j 0 ≤ si.getD (k + 1) 0 := hmono j (k + 1) (by omega) hk4
        have hjb2 : si.getD (k + 1) 0 ≤ si.getD (si.length - 1) 0 :=
          hmono (k + 1) _ (by omega) (by omega)
        have heqk : si.getD k 0 = si.getD j 0 := le_antisymm (htop ▸ hjb) hja
        have heqk1 : si.getD (k + 1) 0 = si.getD j 0 := le_antisymm (htop ▸ hjb2) hja2
        have hchord : (chords pts).getD k 0 = 0 := by
          have hsub : si.getD (k + 1) 0 = si.getD k 0 + (chords pts).getD k 0 :=
            cumFrom_succ_sub (chords pts) 0 k (by rw [hclen]; omega)
          rw [heqk, heqk1] at hsub
          linarith
        exact (chords_zero_eq pts k (by rw [hclen]; omega) hchord).symm
      have hkey : ∀ m : ℕ, j ≤ m → m ≤ si.length - 1 → pts.getD m (0, 0) = pts.getD j (0, 0) := by
        intro m
        induction m with
        | zero => intro h1 _; rw [Nat.le_zero.mp h1]
        | succ m2 ihm =>
          intro h1 h2
          rcases Nat.eq_or_lt_of_le h1 with heq | hlt
          · rw [← heq]
          · have hj2 : j ≤ m2 := by omega
            rw [hstep m2 hj2 (by omega)]
            exact ihm hj2 (by omega)
      have hfinal : pts.getLastD (0, 0) = pts.getD j (0, 0) := by
        rw [getLastD_eq_getD pts (0, 0) hne, ← hlsi]
        exact hkey (si.length - 1) (by omega) (by omega)
      rw [hfinal]
      exact List.mem_map_of_mem _ hjL

lemma arcW : arcLengths [((0 : ℝ), (0 : ℝ)), (2, 0), (4, 0)] = [0, 2, 4] := by
  rw [arcLengths]
  norm_num [chords, sqrt_four, cumFrom]

lemma resampleW : resampleIdx [(0 : ℝ), 2, 4] 2 = [0, 1, 2] := by
  have hr : List.range 3 = [0, 1, 2] := by decide
  rw [resampleIdx]
  norm_num [hr, greedyGo, List.getD_cons_zero, List.getD_cons_succ, List.getLastD]

/-- C6 witness: waypoints (0,0), (2,0), (4,0) with min_grid 2 — all three
knots are kept, the single non-final gap is exactly 2 ≥ 2, and the first and
last points are retained. -/
theorem C6_witness :
    (0 : ℝ) < 2 ∧
    ([((0 : ℝ), (0 : ℝ)), (2, 0), (4, 0)] : List (ℝ × ℝ)) ≠ [] ∧
    (0 : ℕ) + 2 < (resampleIdx (arcLengths [((0 : ℝ), (0 : ℝ)), (2, 0), (4, 0)]) 2).length ∧
    2 ≤ (arcLengths [((0 : ℝ), (0 : ℝ)), (2, 0), (4, 0)]).getD
          ((resampleIdx (arcLengths [((0 : ℝ), (0 : ℝ)), (2, 0), (4, 0)]) 2).getD (0 + 1) 0) 0 -
        (arcLengths [((0 : ℝ), (0 : ℝ)), (2, 0), (4, 0)]).getD
          ((resampleIdx (arcLengths [((0 : ℝ), (0 : ℝ)), (2, 0), (4, 0)]) 2).getD 0 0) 0 ∧
    ([((0 : ℝ), (0 : ℝ)), (2, 0), (4, 0)] : List (ℝ × ℝ)).getD 0 (0, 0) ∈
      (resampleIdx (arcLengths [((0 : ℝ), (0 : ℝ)), (2, 0), (4, 0)]) 2).map
        (fun i => ([((0 : ℝ), (0 : ℝ)), (2, 0), (4, 0)] : List (ℝ × ℝ)).getD i (0, 0)) ∧
    ([((0 : ℝ), (0 : ℝ)), (2, 0), (4, 0)] : List (ℝ × ℝ)).getLastD (0, 0) ∈
      (resampleIdx (arcLengths [((0 : ℝ), (0 : ℝ)), (2, 0), (4, 0)]) 2).map
        (fun i => ([((0 : ℝ), (0 : ℝ)), (2, 0), (4, 0)] : List (ℝ × ℝ)).getD i (0, 0)) := by
  have hlen : (0 : ℕ) + 2 < (resampleIdx (arcLengths [((0 : ℝ), (0 : ℝ)), (2, 0), (4, 0)]) 2).length := by
    rw [arcW, resampleW]
    norm_num
  obtain ⟨h1, h2, h3⟩ := C6_theorem [((0 : ℝ), (0 : ℝ)), (2, 0), (4, 0)] 2 (by norm_num) (by simp)
  exact ⟨by norm_num, by simp, hlen, h1 0 hlen, h2, h3⟩

lemma chords_const (c : ℝ × ℝ) : ∀ pts : List (ℝ × ℝ), (∀ q ∈ pts, q = c) →
    ∀ d ∈ chords pts, d = 0 := by
  intro pts
  induction pts with
  | nil => intro _ d hd; simp [chords] at hd
  | cons p t ih =>
    intro hall d hd
    cases t with
    | nil => simp [chords] at hd
    | cons q r =>
      simp only [chords] at hd
      rcases List.mem_cons.mp hd with rfl | hd2
      · have hp : p = c := hall p (by simp)
        have hq : q = c := hall q (by simp)
        rw [hp, hq]
        norm_num
      · exact ih (fun x hx => hall x (by simp [hx])) d hd2

lemma cumFrom_zero_entries : ∀ l : List ℝ, (∀ d ∈ l, d = 0) →
    ∀ k : ℕ, (cumFrom 0 l).getD k 0 = 0 := by
  intro l
  induction l with
  | nil =>
    intro _ k
    cases k with
    | zero => rfl
    | succ j => rfl
  | cons d ds ih =>
    intro hz k
    have hd : d = 0 := hz d (by simp)
    cases k with
    | zero => rfl
    | succ j =>
      have : (cumFrom 0 (d :: ds)).getD (j + 1) 0 = (cumFrom (0 + d) ds).getD j 0 := rfl
      rw [this, hd, add_zero]
      exact ih (fun x hx => hz x (by simp [hx])) j

lemma chords_short (pts : List (ℝ × ℝ)) (h : pts.length ≤ 1) : chords pts = [] := by
  cases pts with
  | nil => rfl
  | cons p t =>
    cases t with
    | nil => rfl
    | cons q r => simp [List.length_cons] at h

lemma cond_fails (si : List ℝ) (hz : ∀ x ∈ si, x = 0) :
    ¬ (3 ≤ si.length ∧ List.Chain' (· < ·) si) := by
  rintro ⟨hlen, hch⟩
  cases si with
  | nil => simp at hlen
  | cons a t =>
    cases t with
    | nil => simp at hlen
    | cons b u =>
      have ha : a = 0 := hz a (by simp)
      have hb : b = 0 := hz b (by simp)
      rw [List.chain'_cons, ha, hb] at hch
      exact lt_irrefl 0 hch.1

lemma splineBuild_fails (pts : List (ℝ × ℝ)) (idx : List ℕ)
    (hsiz : ∀ k : ℕ, (arcLengths pts).getD k 0 = 0) :
    (splineBuild pts idx).isOk = false ∧ splineBuild pts idx ≠ .error .invalidInputError := by
  have hz : ∀ x ∈ idx.map (fun i => (arcLengths pts).getD i 0), x = 0 := by
    intro x hx
    rcases List.mem_map.mp hx with ⟨i, _, rfl⟩
    exact hsiz i
  simp only [splineBuild]
  rw [if_neg (cond_fails _ hz)]
  exact ⟨rfl, by simp⟩

/-- C1 amended: every degenerate input (fewer than 2 points, or all points
coincident) makes construction fail, but never with `InvalidInputError` —
the failure is an `IndexError` (empty input) or the interpolation library's
`ValueError`; the constructor performs no validation of its own. -/
theorem C1_amended (pts : List (ℝ × ℝ)) (mg : Option ℝ)
    (h : pts.length < 2 ∨ allCoincident pts) :
    (splineInit pts mg).isOk = false ∧ splineInit pts mg ≠ .error .invalidInputError := by
  have hzc : ∀ d ∈ chords pts, d = 0 := by
    rcases h with h | h
    · rw [chords_short pts (by omega)]
      intro d hd
      simp at hd
    · exact chords_const (pts.getD 0 (0, 0)) pts h
  have hsiz : ∀ k : ℕ, (arcLengths pts).getD k 0 = 0 := cumFrom_zero_entries (chords pts) hzc
  by_cases hemp : pts.isEmpty = true
  · cases mg with
    | some g =>
      rw [splineInit, if_pos hemp]
      exact ⟨rfl, by simp⟩
    | none =>
      rw [splineInit, if_pos hemp]
      exact ⟨rfl, by simp⟩
  · cases mg with
    | some g =>
      rw [splineInit, if_neg hemp]
      exact splineBuild_fails pts _ hsiz
    | none =>
      rw [splineInit, if_neg hemp]
      exact splineBuild_fails pts _ hsiz

/-- C1 witness: two coincident points (1,1), (1,1) — a degenerate input on
which construction fails with a library error, not `InvalidInputError`. -/
theorem C1_witness :
    (([((1 : ℝ), (1 : ℝ)), (1, 1)] : List (ℝ × ℝ)).length < 2 ∨
      allCoincident [((1 : ℝ), (1 : ℝ)), (1, 1)]) ∧
    (splineInit [((1 : ℝ), (1 : ℝ)), (1, 1)] none).isOk = false ∧
    splineInit [((1 : ℝ), (1 : ℝ)), (1, 1)] none ≠ .error .invalidInputError := by
  have hco : allCoincident [((1 : ℝ), (1 : ℝ)), (1, 1)] := by
    intro q hq
    have hq2 : q = ((1 : ℝ), (1 : ℝ)) ∨ q = ((1 : ℝ), (1 : ℝ)) := by simpa using hq
    rcases hq2 with rfl | rfl <;> rfl
  exact ⟨Or.inr hco, C1_amended _ none (Or.inr hco)⟩

/-- C1 counterexample: a single point is a degenerate input, yet the
constructor does not raise `InvalidInputError` — it fails with the
interpolation library's `ValueError` instead. -/
theorem C1_counterexample :
    splineInit [((0 : ℝ), (0 : ℝ))] none = .error .valueError ∧
    splineInit [((0 : ℝ), (0 : ℝ))] none ≠ .error .invalidInputError := by
  have hinit : splineInit [((0 : ℝ), (0 : ℝ))] none = .error .valueError := by
    rw [splineInit, if_neg (by simp)]
    show splineBuild [((0 : ℝ), (0 : ℝ))] (List.range (arcLengths [((0 : ℝ), (0 : ℝ))]).length) =
      Except.error PyErr.valueError
    norm_num [splineBuild, arcLengths, chords, cumFrom]
  exact ⟨hinit, by rw [hinit]; simp⟩

end
